import Mathlib

/-!
Shallow embedding of the JsonKit repository (a C++/C JSON library) for
specification checking.  Strings are modelled as lists of Unicode code
points (`List Nat`); C++ iterators into `std::vector` / `std::map` are
modelled as the suffix of elements that remains ahead of the cursor, with
`none` standing for a default-initialized (singular) iterator.
-/

set_option autoImplicit false

/-- Mirrors the enum `Json::Value::Type` from include/value.h: the eight
tags a JSON value can carry, with `Invalid` the sentinel for a failed
decode. -/
inductive ValueType where
  | Invalid
  | Null
  | Boolean
  | String
  | Integer
  | FloatingPoint
  | Array
  | Object
  deriving DecidableEq, Repr

/-- Modelled from the spec: the `Json::Value` tagged union (spec section 3;
the private `Value::Impl` struct is not present in the sources).  Each tag
carries its natural payload; object entries are an association list kept in
sorted key order, mirroring the `std::map<std::string, Value>` backing store
visible in the iterator signatures of include/value.h.  A floating-point
payload is kept symbolically as mantissa and decimal exponent so that the
embedding stays exact. -/
inductive Value where
  | invalid
  | null
  | boolean (b : Bool)
  | string (s : List Nat)
  | integer (i : Int)
  | floatingPoint (mantissa : Int) (exponent10 : Int)
  | array (elements : List Value)
  | object (entries : List (List Nat × Value))

/-- Modelled from the spec: `Json::Value::GetType` returns the tag of the
value (its body lives in the missing part of src/value.cc). -/
def Value.GetType : Value → ValueType
  | .invalid => .Invalid
  | .null => .Null
  | .boolean _ => .Boolean
  | .string _ => .String
  | .integer _ => .Integer
  | .floatingPoint _ _ => .FloatingPoint
  | .array _ => .Array
  | .object _ => .Object

/-- The module-level whitespace table of src/value.cc (lines 4-9):
space, horizontal tab, carriage return, line feed. -/
def WHITESPACE_CHARACTERS : List Nat := [0x20, 0x09, 0x0D, 0x0A]

/-- Modelled from the spec: the decoder skips any run of characters drawn
from `WHITESPACE_CHARACTERS` before and after structural tokens and around
the top-level value (spec section 4.3; the decoder body is in the missing
part of src/value.cc). -/
def skipWs : List Nat → List Nat
  | [] => []
  | c :: rest => if c ∈ WHITESPACE_CHARACTERS then skipWs rest else c :: rest

/-- The decode escape table `SPECIAL_ESCAPE_DECODINGS` of src/value.cc
(lines 15-24): maps the character after a backslash to the code point it
denotes. -/
def SPECIAL_ESCAPE_DECODINGS : List (Nat × Nat) :=
  [ (0x22, 0x22),
    (0x5C, 0x5C),
    (0x2F, 0x2F),
    (0x62, 0x08),
    (0x66, 0x0C),
    (0x6E, 0x0A),
    (0x72, 0x0D),
    (0x74, 0x09) ]

/-- The encode escape table `SPECIAL_ESCAPE_ENCODINGS` of src/value.cc
(lines 29-38): maps a special code point to the character written after a
backslash when encoding. -/
def SPECIAL_ESCAPE_ENCODINGS : List (Nat × Nat) :=
  [ (0x22, 0x22),
    (0x5C, 0x5C),
    (0x2F, 0x2F),
    (0x08, 0x62),
    (0x0C, 0x66),
    (0x0A, 0x6E),
    (0x0D, 0x72),
    (0x09, 0x74) ]

/-- First-match lookup in an association table, the access pattern used on
the `std::map` escape tables. -/
def tableLookup : List (Nat × Nat) → Nat → Option Nat
  | [], _ => none
  | (a, b) :: rest, x => if x = a then some b else tableLookup rest x

/-- Lexicographic comparison of keys, the `operator<` of `std::string`
that orders the `std::map<std::string, Value>` backing an object. -/
def keyLt : List Nat → List Nat → Bool
  | [], [] => false
  | [], _ :: _ => true
  | _ :: _, [] => false
  | a :: as, b :: bs => if a < b then true else if b < a then false else keyLt as bs

/-- Membership test for a key among object entries. -/
def hasKey (k : List Nat) : List (List Nat × Value) → Bool
  | [] => false
  | (k', _) :: rest => if k = k' then true else hasKey k rest

/-- Modelled from the spec: insertion into the sorted association list that
stands for the `std::map<std::string, Value>` object backing store —
insert-or-overwrite, keeping entries in strictly increasing key order. -/
def mapInsert (k : List Nat) (v : Value) : List (List Nat × Value) → List (List Nat × Value)
  | [] => [(k, v)]
  | (k', v') :: rest =>
    if keyLt k k' then (k, v) :: (k', v') :: rest
    else if keyLt k' k then (k', v') :: mapInsert k v rest
    else (k, v) :: rest

/-- Modelled from the spec: `Json::Value::Set` inserts-or-overwrites an
object entry (spec section 4.1); on the `Invalid` sentinel it auto-vivifies
an object, and on any other non-object tag it leaves the value unchanged.
Its body is in the missing part of src/value.cc. -/
def Value.Set (v : Value) (k : List Nat) (x : Value) : Value :=
  match v with
  | .object entries => .object (mapInsert k x entries)
  | .invalid => .object (mapInsert k x [])
  | other => other

/-- Modelled from the spec: `Json::Value::GetKeys` returns the keys of an
object in the order the backing ordered map stores them, and an empty list
for any other tag (include/value.h lines 346-351; body missing from src). -/
def Value.GetKeys : Value → List (List Nat)
  | .object entries => entries.map Prod.fst
  | _ => []

/-- Builds an object by applying `Set` for each key/value pair in order,
starting from an empty object: the generic "insertion in any order"
scenario of the Object API. -/
def buildObject (kvs : List (List Nat × Value)) : Value :=
  kvs.foldl (fun acc kv => acc.Set kv.1 kv.2) (Value.object [])

/-- The `Json::EncodingOptions` record of include/value.h (lines 19-72)
with its default member initializers. -/
structure EncodingOptions where
  escapeNonAscii : Bool := false
  reencode : Bool := false
  pretty : Bool := false
  spacesPerIndentationLevel : Nat := 4
  wrapThreshold : Nat := 60
  numIndentationLevels : Nat := 0

/-- The `json_config_t` record of include/json.h (lines 54-58). -/
structure json_config_t where
  max_nesting_depth : Nat
  max_string_length : Nat
  max_number_length : Nat
  deriving DecidableEq, Repr

/-- `JSON_DEFAULT_MAX_DEPTH` from src/json_internal.h line 21. -/
def JSON_DEFAULT_MAX_DEPTH : Nat := 32

/-- `JSON_DEFAULT_MAX_STRING` from src/json_internal.h line 27. -/
def JSON_DEFAULT_MAX_STRING : Nat := 1048576

/-- `JSON_DEFAULT_MAX_NUMBER` from src/json_internal.h line 33. -/
def JSON_DEFAULT_MAX_NUMBER : Nat := 32

/-- The parts of the `struct json_parser` state of src/json_internal.h
relevant to configuration: the active limits and the last error code
(position/line/column/token state omitted as irrelevant to the claims). -/
structure json_parser_t where
  config : json_config_t
  last_error : Nat

/-- Modelled from the spec: `json_create_parser` (declared in
include/json.h line 65, body not among the sources) creates a parser whose
active limits are taken from the supplied configuration, or are the three
`JSON_DEFAULT_*` values when no configuration is given. -/
def jsonCreateParser (config : Option json_config_t) : json_parser_t :=
  { config :=
      match config with
      | some c => c
      | none =>
        { max_nesting_depth := JSON_DEFAULT_MAX_DEPTH,
          max_string_length := JSON_DEFAULT_MAX_STRING,
          max_number_length := JSON_DEFAULT_MAX_NUMBER },
    last_error := 0 }

/-- Recognizes an ASCII decimal digit. -/
def isDigit (c : Nat) : Bool := 0x30 ≤ c && c ≤ 0x39

/-- Value of one hexadecimal digit, or `none`. -/
def hexDigit (c : Nat) : Option Nat :=
  if 0x30 ≤ c ∧ c ≤ 0x39 then some (c - 0x30)
  else if 0x41 ≤ c ∧ c ≤ 0x46 then some (c - 0x37)
  else if 0x61 ≤ c ∧ c ≤ 0x66 then some (c - 0x57)
  else none

/-- Reads exactly four hexadecimal digits (the `XXXX` of a `\uXXXX`
escape), returning their value and the rest of the input. -/
def hex4 : List Nat → Option (Nat × List Nat)
  | a :: b :: c :: d :: rest => do
    let x ← hexDigit a
    let y ← hexDigit b
    let z ← hexDigit c
    let w ← hexDigit d
    pure ((((x * 16 + y) * 16 + z) * 16 + w), rest)
  | _ => none

/-- Consumes the given expected characters from the front of the input,
used for the tails of the `true` / `false` / `null` literals. -/
def expectChars : List Nat → List Nat → Option (List Nat)
  | [], input => some input
  | p :: ps, c :: rest => if c = p then expectChars ps rest else none
  | _ :: _, [] => none

/-- Accumulates the numeric value of a digit run. -/
def digitsVal (acc : Nat) : List Nat → Nat
  | [] => acc
  | d :: rest => digitsVal (acc * 10 + (d - 0x30)) rest

/-- Modelled from the spec: decoding of a string body after the opening
quote (spec section 4.3): plain characters up to the closing quote, the
eight short escapes via `SPECIAL_ESCAPE_DECODINGS`, `\uXXXX` escapes with
mandatory surrogate pairing, and rejection of unescaped control
characters; `none` is the decode failure.  Fuel-structural so the
embedding stays total. -/
def parseStringBody : Nat → List Nat → Option (List Nat × List Nat)
  | 0, _ => none
  | _ + 1, [] => none
  | fuel + 1, c :: rest =>
    if c = 0x22 then some ([], rest)
    else if c = 0x5C then
      match rest with
      | [] => none
      | e :: rest2 =>
        match tableLookup SPECIAL_ESCAPE_DECODINGS e with
        | some d =>
          match parseStringBody fuel rest2 with
          | some (s, r) => some (d :: s, r)
          | none => none
        | none =>
          if e = 0x75 then
            match hex4 rest2 with
            | none => none
            | some (n, rest3) =>
              if 0xD800 ≤ n ∧ n ≤ 0xDBFF then
                match rest3 with
                | 0x5C :: 0x75 :: rest4 =>
                  match hex4 rest4 with
                  | none => none
                  | some (m, rest5) =>
                    if 0xDC00 ≤ m ∧ m ≤ 0xDFFF then
                      match parseStringBody fuel rest5 with
                      | some (s, r) =>
                        some ((0x10000 + (n - 0xD800) * 0x400 + (m - 0xDC00)) :: s, r)
                      | none => none
                    else none
                | _ => none
              else if 0xDC00 ≤ n ∧ n ≤ 0xDFFF then none
              else
                match parseStringBody fuel rest3 with
                | some (s, r) => some (n :: s, r)
                | none => none
          else none
    else if c < 0x20 then none
    else
      match parseStringBody fuel rest with
      | some (s, r) => some (c :: s, r)
      | none => none

/-- Modelled from the spec: number decoding (spec section 4.3): optional
minus, integer part with no leading zero unless it is exactly `0`,
optional fraction, optional exponent; a number with neither fraction nor
exponent yields `Integer`, otherwise `FloatingPoint` (kept as mantissa and
decimal exponent). -/
def parseNumber (input : List Nat) : Option (Value × List Nat) :=
  let signAndRest : Bool × List Nat :=
    match input with
    | 0x2D :: r => (true, r)
    | _ => (false, input)
  let neg := signAndRest.1
  let s1 := signAndRest.2
  let intSplit := s1.span (fun d => isDigit d)
  let intDigits := intSplit.1
  let s2 := intSplit.2
  if intDigits = [] then none
  else if 1 < intDigits.length ∧ intDigits.headD 0 = 0x30 then none
  else
    let fracStep : List Nat × List Nat × Bool × Bool :=
      match s2 with
      | 0x2E :: r =>
        let fs := r.span (fun d => isDigit d)
        (fs.1, fs.2, true, !fs.1.isEmpty)
      | _ => ([], s2, false, true)
    let fracDigits := fracStep.1
    let s3 := fracStep.2.1
    let hasFrac := fracStep.2.2.1
    let fracOk := fracStep.2.2.2
    let expStep : Int × List Nat × Bool × Bool :=
      match s3 with
      | e :: r =>
        if e = 0x65 ∨ e = 0x45 then
          let signSplit : Bool × List Nat :=
            match r with
            | 0x2D :: r2 => (true, r2)
            | 0x2B :: r2 => (false, r2)
            | _ => (false, r)
          let ds := signSplit.2.span (fun d => isDigit d)
          let raw : Int := Int.ofNat (digitsVal 0 ds.1)
          ((if signSplit.1 then -raw else raw), ds.2, true, !ds.1.isEmpty)
        else (0, s3, false, true)
      | [] => (0, s3, false, true)
    let expVal := expStep.1
    let s4 := expStep.2.1
    let hasExp := expStep.2.2.1
    let expOk := expStep.2.2.2
    if fracOk && expOk then
      if hasFrac || hasExp then
        let mantissaNat := digitsVal (digitsVal 0 intDigits) fracDigits
        let mantissa : Int :=
          if neg then -(Int.ofNat mantissaNat) else Int.ofNat mantissaNat
        some (Value.floatingPoint mantissa (expVal - Int.ofNat fracDigits.length), s4)
      else
        let n : Int := Int.ofNat (digitsVal 0 intDigits)
        some (Value.integer (if neg then -n else n), s4)
    else none

/-- Mode tag for the single fuelled parsing function: which grammar
production is being parsed, with the accumulated elements or entries of a
partially parsed composite. -/
inductive PMode where
  | val
  | arrayStart
  | arrayTail (acc : List Value)
  | objectStart
  | member (entries : List (List Nat × Value))
  | objectTail (entries : List (List Nat × Value))

/-- Modelled from the spec: the recursive-descent JSON decoder (spec
section 4.3) driving all productions through one fuel-structural function:
literals must be lowercase, arrays are comma-separated values, object
members are string keys, a colon and a value, a repeated key within one
object is a decode failure, and object entries are stored through
`mapInsert` into the sorted backing map.  `none` is the decode failure. -/
def parseRun : Nat → PMode → List Nat → Option (Value × List Nat)
  | 0, _, _ => none
  | _ + 1, .val, [] => none
  | fuel + 1, .val, c :: rest =>
    if c = 0x74 then
      match expectChars [0x72, 0x75, 0x65] rest with
      | some r => some (Value.boolean true, r)
      | none => none
    else if c = 0x66 then
      match expectChars [0x61, 0x6C, 0x73, 0x65] rest with
      | some r => some (Value.boolean false, r)
      | none => none
    else if c = 0x6E then
      match expectChars [0x75, 0x6C, 0x6C] rest with
      | some r => some (Value.null, r)
      | none => none
    else if c = 0x22 then
      match parseStringBody (rest.length + 1) rest with
      | some (s, r) => some (Value.string s, r)
      | none => none
    else if c = 0x5B then parseRun fuel .arrayStart (skipWs rest)
    else if c = 0x7B then parseRun fuel .objectStart (skipWs rest)
    else if c = 0x2D || isDigit c then parseNumber (c :: rest)
    else none
  | _ + 1, .arrayStart, [] => none
  | fuel + 1, .arrayStart, c :: rest =>
    if c = 0x5D then some (Value.array [], rest)
    else
      match parseRun fuel .val (c :: rest) with
      | some (v, r) => parseRun fuel (.arrayTail [v]) (skipWs r)
      | none => none
  | _ + 1, .arrayTail _, [] => none
  | fuel + 1, .arrayTail acc, c :: rest =>
    if c = 0x5D then some (Value.array acc.reverse, rest)
    else if c = 0x2C then
      match parseRun fuel .val (skipWs rest) with
      | some (v, r) => parseRun fuel (.arrayTail (v :: acc)) (skipWs r)
      | none => none
    else none
  | _ + 1, .objectStart, [] => none
  | fuel + 1, .objectStart, c :: rest =>
    if c = 0x7D then some (Value.object [], rest)
    else parseRun fuel (.member []) (c :: rest)
  | _ + 1, .member _, [] => none
  | fuel + 1, .member entries, c :: rest =>
    if c = 0x22 then
      match parseStringBody (rest.length + 1) rest with
      | some (k, r1) =>
        if hasKey k entries then none
        else
          match skipWs r1 with
          | 0x3A :: r2 =>
            match parseRun fuel .val (skipWs r2) with
            | some (v, r3) => parseRun fuel (.objectTail (mapInsert k v entries)) (skipWs r3)
            | none => none
          | _ => none
      | none => none
    else none
  | _ + 1, .objectTail _, [] => none
  | fuel + 1, .objectTail entries, c :: rest =>
    if c = 0x7D then some (Value.object entries, rest)
    else if c = 0x2C then parseRun fuel (.member entries) (skipWs rest)
    else none

/-- Modelled from the spec: top-level decode of a sequence of code points —
skip surrounding whitespace, parse exactly one value, require the input to
be exhausted; `none` is the overall decode failure. -/
def parseJsonText (enc : List Nat) : Option Value :=
  let trimmed := skipWs enc
  match parseRun (2 * trimmed.length + 4) .val trimmed with
  | some (v, rest) => if skipWs rest = [] then some v else none
  | none => none

/-- Modelled from the spec: `Json::Value::FromEncoding` on a code-point
sequence (include/value.h line 528; body in the missing part of
src/value.cc): a successful parse yields the parsed value, any failure
yields the `Invalid` sentinel, and the function is total so no failure
can propagate out of the call. -/
def Value.FromEncoding (enc : List Nat) : Value :=
  match parseJsonText enc with
  | some v => v
  | none => Value.invalid

/-- Modelled from the spec: UTF-8 decoding of a byte sequence into code
points, as done by the vendored Unicode helper the string overload relies
on — rejecting stray continuation bytes, truncated or overlong sequences,
surrogate code points and values beyond U+10FFFF. -/
def utf8Decode : Nat → List Nat → Option (List Nat)
  | _, [] => some []
  | 0, _ :: _ => none
  | fuel + 1, b :: rest =>
    if b ≤ 0x7F then
      match utf8Decode fuel rest with
      | some cps => some (b :: cps)
      | none => none
    else if 0xC2 ≤ b ∧ b ≤ 0xDF then
      match rest with
      | b2 :: rest2 =>
        if 0x80 ≤ b2 ∧ b2 ≤ 0xBF then
          match utf8Decode fuel rest2 with
          | some cps => some (((b - 0xC0) * 0x40 + (b2 - 0x80)) :: cps)
          | none => none
        else none
      | [] => none
    else if 0xE0 ≤ b ∧ b ≤ 0xEF then
      match rest with
      | b2 :: b3 :: rest2 =>
        if (0x80 ≤ b2 ∧ b2 ≤ 0xBF) ∧ (0x80 ≤ b3 ∧ b3 ≤ 0xBF) then
          let cp := (b - 0xE0) * 0x1000 + (b2 - 0x80) * 0x40 + (b3 - 0x80)
          if cp < 0x800 then none
          else if 0xD800 ≤ cp ∧ cp ≤ 0xDFFF then none
          else
            match utf8Decode fuel rest2 with
            | some cps => some (cp :: cps)
            | none => none
        else none
      | _ => none
    else if 0xF0 ≤ b ∧ b ≤ 0xF4 then
      match rest with
      | b2 :: b3 :: b4 :: rest2 =>
        if (0x80 ≤ b2 ∧ b2 ≤ 0xBF) ∧ (0x80 ≤ b3 ∧ b3 ≤ 0xBF) ∧ (0x80 ≤ b4 ∧ b4 ≤ 0xBF) then
          let cp := (b - 0xF0) * 0x40000 + (b2 - 0x80) * 0x1000 + (b3 - 0x80) * 0x40 + (b4 - 0x80)
          if cp < 0x10000 ∨ 0x10FFFF < cp then none
          else
            match utf8Decode fuel rest2 with
            | some cps => some (cp :: cps)
            | none => none
        else none
      | _ => none
    else none

/-- Modelled from the spec: decode of a byte string — UTF-8 decode the
bytes, then parse the resulting code points; `none` on either failure. -/
def parseJsonBytes (bytes : List Nat) : Option Value :=
  match utf8Decode (bytes.length + 1) bytes with
  | some cps => parseJsonText cps
  | none => none

/-- Modelled from the spec: the `std::string` overload of
`Json::Value::FromEncoding` (include/value.h line 536): decodes the bytes
as UTF-8 and parses, yielding the `Invalid` sentinel on any failure;
total, so no failure propagates. -/
def Value.FromEncodingString (bytes : List Nat) : Value :=
  match parseJsonBytes bytes with
  | some v => v
  | none => Value.invalid

/-- The `Iterator` data of iterator.h and include/value.h: a pointer to
the bound container plus one cursor per container kind.  A cursor is the
suffix of elements still ahead of it (how a `std::vector` / `std::map`
const iterator addresses its remaining range); `none` models a
default-initialized (singular) iterator, which is what the constructor
that received only the other cursor leaves behind. -/
structure Iterator where
  container : Value
  nextArrayEntry : Option (List Value)
  nextObjectEntry : Option (List (List Nat × Value))

/-- Advance of a C++ iterator cursor: step past the current element; a
singular cursor stays singular in this total embedding. -/
def bump {α : Type} : Option (List α) → Option (List α)
  | some l => some l.tail
  | none => none

namespace IteratorCpp

/-- The array-cursor constructor of src/iterator.cpp lines 3-7: stores the
container pointer and the array cursor; the object cursor member stays
default-initialized. -/
def mkArray (container : Value) (nextArrayEntry : List Value) : Iterator :=
  { container := container, nextArrayEntry := some nextArrayEntry, nextObjectEntry := none }

/-- The object-cursor constructor of src/iterator.cpp lines 9-13: stores
the container pointer and the object cursor; the array cursor member stays
default-initialized. -/
def mkObject (container : Value) (nextObjectEntry : List (List Nat × Value)) : Iterator :=
  { container := container, nextArrayEntry := none, nextObjectEntry := some nextObjectEntry }

/-- `Iterator::operator++` of src/iterator.cpp lines 15-17: advance the
array cursor when the container's tag is `Array`, otherwise the object
cursor. -/
def inc (it : Iterator) : Iterator :=
  if it.container.GetType = ValueType.Array
  then { it with nextArrayEntry := bump it.nextArrayEntry }
  else { it with nextObjectEntry := bump it.nextObjectEntry }

/-- `Iterator::operator!=` of src/iterator.cpp lines 19-23: compare the
array cursors when the container's tag is `Array`, otherwise the object
cursors. -/
def neq (it other : Iterator) : Prop :=
  if it.container.GetType = ValueType.Array
  then it.nextArrayEntry ≠ other.nextArrayEntry
  else it.nextObjectEntry ≠ other.nextObjectEntry

/-- `Iterator::operator*` of src/iterator.cpp lines 26-28: returns the
iterator itself. -/
def deref (it : Iterator) : Iterator := it

/-- `Iterator::key` of src/iterator.cpp lines 30-32: unconditionally reads
`nextObjectEntry->first`; dereferencing a singular or exhausted cursor has
no defined result, which this total embedding renders as `none`. -/
def key (it : Iterator) : Option (List Nat) :=
  match it.nextObjectEntry with
  | some ((k, _) :: _) => some k
  | _ => none

/-- `Iterator::value` of src/iterator.cpp lines 34-36: dereference the
array cursor when the container's tag is `Array`, otherwise the object
cursor's mapped value; `none` for a singular or exhausted cursor. -/
def value (it : Iterator) : Option Value :=
  if it.container.GetType = ValueType.Array then
    match it.nextArrayEntry with
    | some (x :: _) => some x
    | _ => none
  else
    match it.nextObjectEntry with
    | some ((_, x) :: _) => some x
    | _ => none

end IteratorCpp

namespace ValueCc

/-- The array-cursor constructor of src/value.cc lines 41-45. -/
def mkArray (container : Value) (nextArrayEntry : List Value) : Iterator :=
  { container := container, nextArrayEntry := some nextArrayEntry, nextObjectEntry := none }

/-- The object-cursor constructor of src/value.cc lines 47-51. -/
def mkObject (container : Value) (nextObjectEntry : List (List Nat × Value)) : Iterator :=
  { container := container, nextArrayEntry := none, nextObjectEntry := some nextObjectEntry }

/-- `Iterator::operator++` of src/value.cc lines 53-55. -/
def inc (it : Iterator) : Iterator :=
  if it.container.GetType = ValueType.Array
  then { it with nextArrayEntry := bump it.nextArrayEntry }
  else { it with nextObjectEntry := bump it.nextObjectEntry }

/-- `Iterator::operator!=` of src/value.cc lines 57-61. -/
def neq (it other : Iterator) : Prop :=
  if it.container.GetType = ValueType.Array
  then it.nextArrayEntry ≠ other.nextArrayEntry
  else it.nextObjectEntry ≠ other.nextObjectEntry

/-- `Iterator::operator*` of src/value.cc lines 64-66. -/
def deref (it : Iterator) : Iterator := it

/-- `Iterator::key` of src/value.cc lines 68-70. -/
def key (it : Iterator) : Option (List Nat) :=
  match it.nextObjectEntry with
  | some ((k, _) :: _) => some k
  | _ => none

/-- `Iterator::value` of src/value.cc lines 72-74. -/
def value (it : Iterator) : Option Value :=
  if it.container.GetType = ValueType.Array then
    match it.nextArrayEntry with
    | some (x :: _) => some x
    | _ => none
  else
    match it.nextObjectEntry with
    | some ((_, x) :: _) => some x
    | _ => none

end ValueCc

def keyInsert (k : List Nat) : List (List Nat) → List (List Nat)
  | [] => [k]
  | k' :: rest =>
    if keyLt k k' then k :: k' :: rest
    else if keyLt k' k then k' :: keyInsert k rest
    else k :: rest

theorem map_fst_mapInsert (k : List Nat) (v : Value) :
    ∀ l : List (List Nat × Value), (mapInsert k v l).map Prod.fst = keyInsert k (l.map Prod.fst) := by
  intro l
  induction l with
  | nil => rfl
  | cons p rest ih =>
    obtain ⟨k', v'⟩ := p
    simp only [mapInsert, keyInsert, List.map_cons]
    by_cases h1 : keyLt k k' = true
    · simp [h1]
    · by_cases h2 : keyLt k' k = true
      · simp [h1, h2, ih]
      · simp [h1, h2]

theorem keyLt_trans : ∀ (a b c : List Nat),
    keyLt a b = true → keyLt b c = true → keyLt a c = true
  | [], [], _, hab, _ => by simp [keyLt] at hab
  | [], _ :: _, [], _, hbc => by simp [keyLt] at hbc
  | [], _ :: _, _ :: _, _, _ => by simp [keyLt]
  | _ :: _, [], _, hab, _ => by simp [keyLt] at hab
  | _ :: _, _ :: _, [], _, hbc => by simp [keyLt] at hbc
  | x :: xs, y :: ys, z :: zs, hab, hbc => by
    simp only [keyLt] at hab hbc ⊢
    by_cases hxy : x < y
    · by_cases hyz : y < z
      · rw [if_pos (Nat.lt_trans hxy hyz)]
      · rw [if_neg hyz] at hbc
        by_cases hzy : z < y
        · rw [if_pos hzy] at hbc; simp at hbc
        · have hyeq : y = z := Nat.le_antisymm (Nat.le_of_not_lt hzy) (Nat.le_of_not_lt hyz)
          subst hyeq
          rw [if_pos hxy]
    · rw [if_neg hxy] at hab
      by_cases hyx : y < x
      · rw [if_pos hyx] at hab; simp at hab
      · rw [if_neg hyx] at hab
        have hxeq : x = y := Nat.le_antisymm (Nat.le_of_not_lt hyx) (Nat.le_of_not_lt hxy)
        subst hxeq
        by_cases hxz : x < z
        · rw [if_pos hxz]
        · rw [if_neg hxz] at hbc ⊢
          by_cases hzx : z < x
          · rw [if_pos hzx] at hbc; simp at hbc
          · rw [if_neg hzx] at hbc ⊢
            exact keyLt_trans xs ys zs hab hbc

theorem keyLt_conn : ∀ (a b : List Nat),
    keyLt a b = false → keyLt b a = false → a = b
  | [], [], _, _ => rfl
  | [], _ :: _, hab, _ => by simp [keyLt] at hab
  | _ :: _, [], _, hba => by simp [keyLt] at hba
  | x :: xs, y :: ys, hab, hba => by
    simp only [keyLt] at hab hba
    by_cases hxy : x < y
    · rw [if_pos hxy] at hab; simp at hab
    · rw [if_neg hxy] at hab
      by_cases hyx : y < x
      · rw [if_pos hyx] at hba; simp at hba
      · rw [if_neg hyx] at hab
        rw [if_neg hyx, if_neg hxy] at hba
        have hxeq : x = y := Nat.le_antisymm (Nat.le_of_not_lt hyx) (Nat.le_of_not_lt hxy)
        subst hxeq
        rw [keyLt_conn xs ys hab hba]

theorem mem_keyInsert : ∀ {ks : List (List Nat)} {k s : List Nat},
    s ∈ keyInsert k ks → s = k ∨ s ∈ ks := by
  intro ks
  induction ks with
  | nil =>
    intro k s h
    simp [keyInsert] at h
    exact Or.inl h
  | cons k' rest ih =>
    intro k s h
    simp only [keyInsert] at h
    by_cases h1 : keyLt k k' = true
    · rw [if_pos h1] at h
      rcases List.mem_cons.mp h with h | h
      · exact Or.inl h
      · exact Or.inr h
    · rw [if_neg (by simpa using h1)] at h
      by_cases h2 : keyLt k' k = true
      · rw [if_pos h2] at h
        rcases List.mem_cons.mp h with h | h
        · exact Or.inr (List.mem_cons.mpr (Or.inl h))
        · rcases ih h with h3 | h3
          · exact Or.inl h3
          · exact Or.inr (List.mem_cons.mpr (Or.inr h3))
      · rw [if_neg (by simpa using h2)] at h
        rcases List.mem_cons.mp h with h | h
        · exact Or.inl h
        · exact Or.inr (List.mem_cons.mpr (Or.inr h))

theorem pairwise_keyInsert : ∀ {ks : List (List Nat)} {k : List Nat},
    List.Pairwise (fun a b => keyLt a b = true) ks →
    List.Pairwise (fun a b => keyLt a b = true) (keyInsert k ks) := by
  intro ks
  induction ks with
  | nil =>
    intro k _
    simp [keyInsert]
  | cons k' rest ih =>
    intro k h
    rcases List.pairwise_cons.mp h with ⟨hk', hrest⟩
    simp only [keyInsert]
    by_cases h1 : keyLt k k' = true
    · rw [if_pos h1]
      refine List.pairwise_cons.mpr ⟨?_, h⟩
      intro a ha
      rcases List.mem_cons.mp ha with ha | ha
      · subst ha; exact h1
      · exact keyLt_trans k k' a h1 (hk' a ha)
    · rw [if_neg (by simpa using h1)]
      by_cases h2 : keyLt k' k = true
      · rw [if_pos h2]
        refine List.pairwise_cons.mpr ⟨?_, ih hrest⟩
        intro a ha
        rcases mem_keyInsert ha with h3 | h3
        · subst h3; exact h2
        · exact hk' a h3
      · rw [if_neg (by simpa using h2)]
        have hkk : k = k' := keyLt_conn k k' (by simpa using h1) (by simpa using h2)
        subst hkk
        exact List.pairwise_cons.mpr ⟨hk', hrest⟩

/-- Claim C1: for every input, `Json::Value::FromEncoding` (code-point
overload and string overload) returns normally — both embeddings are total
functions — and whenever the input is not a syntactically valid JSON
document the returned value carries the `Invalid` tag; on success the
parsed value itself is returned, so no failure escapes the call. -/
theorem FromEncoding_invalid_on_failure (cps bytes : List Nat) :
    (parseJsonText cps = none → (Value.FromEncoding cps).GetType = ValueType.Invalid) ∧
    ((Value.FromEncoding cps).GetType = ValueType.Invalid ∨
      parseJsonText cps = some (Value.FromEncoding cps)) ∧
    (parseJsonBytes bytes = none → (Value.FromEncodingString bytes).GetType = ValueType.Invalid) := by
  refine ⟨?_, ?_, ?_⟩
  · intro h
    simp [Value.FromEncoding, h, Value.GetType]
  · cases h : parseJsonText cps with
    | none => exact Or.inl (by simp [Value.FromEncoding, h, Value.GetType])
    | some v => exact Or.inr (by simp [Value.FromEncoding, h])
  · intro h
    simp [Value.FromEncodingString, h, Value.GetType]

/-- Witness for C1 at concrete inputs: the lone code point of an opening
brace is not valid JSON, and the byte 0xFF is not valid UTF-8; both
decodes yield the `Invalid` tag. -/
theorem FromEncoding_invalid_on_failure_witness :
    (Value.FromEncoding [0x7B]).GetType = ValueType.Invalid ∧
    (Value.FromEncodingString [0xFF]).GetType = ValueType.Invalid :=
  ⟨(FromEncoding_invalid_on_failure [0x7B] [0xFF]).1 rfl,
   (FromEncoding_invalid_on_failure [0x7B] [0xFF]).2.2 rfl⟩

/-- Claim C2: the decode escape table is exactly the eight pairs mapping
the escape characters for quote, backslash, slash, b, f, n, r, t to the
code points 0x22, 0x5C, 0x2F, 0x08, 0x0C, 0x0A, 0x0D, 0x09, and the
encode table is exactly the inverse relation of the decode table. -/
theorem escape_tables_exact_and_inverse :
    SPECIAL_ESCAPE_DECODINGS =
      [(0x22, 0x22), (0x5C, 0x5C), (0x2F, 0x2F), (0x62, 0x08),
       (0x66, 0x0C), (0x6E, 0x0A), (0x72, 0x0D), (0x74, 0x09)] ∧
    ∀ e c : Nat, (e, c) ∈ SPECIAL_ESCAPE_DECODINGS ↔ (c, e) ∈ SPECIAL_ESCAPE_ENCODINGS := by
  refine ⟨rfl, ?_⟩
  intro e c
  constructor
  · intro h
    simp only [SPECIAL_ESCAPE_DECODINGS, List.mem_cons, List.not_mem_nil, or_false] at h
    rcases h with h | h | h | h | h | h | h | h <;>
      (rw [Prod.ext_iff] at h; obtain ⟨h1, h2⟩ := h; subst h1; subst h2;
       simp [SPECIAL_ESCAPE_ENCODINGS])
  · intro h
    simp only [SPECIAL_ESCAPE_ENCODINGS, List.mem_cons, List.not_mem_nil, or_false] at h
    rcases h with h | h | h | h | h | h | h | h <;>
      (rw [Prod.ext_iff] at h; obtain ⟨h1, h2⟩ := h; subst h1; subst h2;
       simp [SPECIAL_ESCAPE_DECODINGS])

/-- Claim C3: object entries are kept in an ordered map, so for an object
built by any sequence of `Set` calls in any insertion order the key list
returned by `GetKeys` is sorted strictly increasingly by the lexicographic
key order; in particular setting key b then key a yields keys [a, b]. -/
theorem object_keys_sorted :
    (∀ kvs : List (List Nat × Value),
      List.Pairwise (fun a b => keyLt a b = true) (buildObject kvs).GetKeys) ∧
    (((Value.object []).Set [0x62] Value.null).Set [0x61] Value.null).GetKeys
      = [[0x61], [0x62]] := by
  constructor
  · have main : ∀ (kvs entries : List (List Nat × Value)),
        List.Pairwise (fun a b => keyLt a b = true) (entries.map Prod.fst) →
        List.Pairwise (fun a b => keyLt a b = true)
          ((kvs.foldl (fun acc kv => acc.Set kv.1 kv.2) (Value.object entries)).GetKeys) := by
      intro kvs
      induction kvs with
      | nil =>
        intro entries h
        simpa [Value.GetKeys] using h
      | cons kv rest ih =>
        intro entries h
        simp only [List.foldl_cons, Value.Set]
        exact ih _ (by rw [map_fst_mapInsert]; exact pairwise_keyInsert h)
    intro kvs
    exact main kvs [] (by simp)
  · rfl

/-- Claim C4: the decoder whitespace table contains exactly the four code
points space, tab, carriage return and line feed, and the whitespace
skipper consumes a leading character precisely when it belongs to that
table. -/
theorem whitespace_set_exact :
    WHITESPACE_CHARACTERS = [0x20, 0x09, 0x0D, 0x0A] ∧
    ∀ (c : Nat) (rest : List Nat),
      (c ∈ WHITESPACE_CHARACTERS → skipWs (c :: rest) = skipWs rest) ∧
      (c ∉ WHITESPACE_CHARACTERS → skipWs (c :: rest) = c :: rest) := by
  refine ⟨rfl, ?_⟩
  intro c rest
  constructor
  · intro h
    simp [skipWs, h]
  · intro h
    simp [skipWs, h]

/-- Witness for C4 at concrete input: a leading space is skipped, a
leading digit is not. -/
theorem whitespace_set_exact_witness :
    skipWs [0x20, 0x31] = skipWs [0x31] ∧ skipWs [0x31] = [0x31] :=
  ⟨(whitespace_set_exact.2 0x20 [0x31]).1 (by decide),
   (whitespace_set_exact.2 0x31 []).2 (by decide)⟩

/-- Claim C5: a default-constructed `EncodingOptions` record has
escapeNonAscii, reencode and pretty all false, 4 spaces per indentation
level, wrap threshold 60 and 0 starting indentation levels. -/
theorem encodingOptions_defaults :
    ({} : EncodingOptions).escapeNonAscii = false ∧
    ({} : EncodingOptions).reencode = false ∧
    ({} : EncodingOptions).pretty = false ∧
    ({} : EncodingOptions).spacesPerIndentationLevel = 4 ∧
    ({} : EncodingOptions).wrapThreshold = 60 ∧
    ({} : EncodingOptions).numIndentationLevels = 0 :=
  ⟨rfl, rfl, rfl, rfl, rfl, rfl⟩

/-- Claim C6: a parser created without an explicit configuration has the
default limits 32 / 1,048,576 / 32, the values of the three
`JSON_DEFAULT_*` constants. -/
theorem default_parser_limits :
    (jsonCreateParser none).config =
      { max_nesting_depth := 32, max_string_length := 1048576, max_number_length := 32 } ∧
    JSON_DEFAULT_MAX_DEPTH = 32 ∧
    JSON_DEFAULT_MAX_STRING = 1048576 ∧
    JSON_DEFAULT_MAX_NUMBER = 32 :=
  ⟨rfl, rfl, rfl, rfl⟩

/-- Claim C7: `Iterator::operator++` advances the array cursor and leaves
the object cursor and the container untouched when the bound container's
tag is `Array`, and advances the object cursor leaving the array cursor
and the container untouched for every other tag. -/
theorem iterator_inc_dispatch (it : Iterator) :
    (it.container.GetType = ValueType.Array →
      IteratorCpp.inc it =
        { container := it.container, nextArrayEntry := bump it.nextArrayEntry,
          nextObjectEntry := it.nextObjectEntry }) ∧
    (it.container.GetType ≠ ValueType.Array →
      IteratorCpp.inc it =
        { container := it.container, nextArrayEntry := it.nextArrayEntry,
          nextObjectEntry := bump it.nextObjectEntry }) := by
  constructor
  · intro h
    simp [IteratorCpp.inc, h]
  · intro h
    simp [IteratorCpp.inc, h]

/-- Witness for C7 at concrete iterators over an empty array and an empty
object. -/
theorem iterator_inc_dispatch_witness :
    IteratorCpp.inc (IteratorCpp.mkArray (Value.array []) []) =
      { container := Value.array [], nextArrayEntry := bump (some []),
        nextObjectEntry := none } ∧
    IteratorCpp.inc (IteratorCpp.mkObject (Value.object []) []) =
      { container := Value.object [], nextArrayEntry := none,
        nextObjectEntry := bump (some []) } :=
  ⟨(iterator_inc_dispatch (IteratorCpp.mkArray (Value.array []) [])).1 rfl,
   (iterator_inc_dispatch (IteratorCpp.mkObject (Value.object []) [])).2 (by decide)⟩

/-- Claim C8: the Iterator implementation in src/value.cc and the one in
src/iterator.cpp are behaviorally identical — both constructors and every
operation denote the same function. -/
theorem iterator_impls_equivalent :
    (∀ (v : Value) (cur : List Value), ValueCc.mkArray v cur = IteratorCpp.mkArray v cur) ∧
    (∀ (v : Value) (cur : List (List Nat × Value)),
      ValueCc.mkObject v cur = IteratorCpp.mkObject v cur) ∧
    (∀ it : Iterator, ValueCc.inc it = IteratorCpp.inc it) ∧
    (∀ it other : Iterator, ValueCc.neq it other ↔ IteratorCpp.neq it other) ∧
    (∀ it : Iterator, ValueCc.deref it = IteratorCpp.deref it) ∧
    (∀ it : Iterator, ValueCc.key it = IteratorCpp.key it) ∧
    (∀ it : Iterator, ValueCc.value it = IteratorCpp.value it) :=
  ⟨fun _ _ => rfl, fun _ _ => rfl, fun _ => rfl, fun _ _ => Iff.rfl,
   fun _ => rfl, fun _ => rfl, fun _ => rfl⟩

/-- Claim C9: `Iterator::key` reads only the object cursor — its result is
unchanged under any change of container or array cursor — so an iterator
made by the array-cursor constructor, whose object cursor member is left
default-initialized (singular), reaches the error branch (`none`), while
an iterator made by the object-cursor constructor on a nonempty position
yields its key. -/
theorem iterator_key_reads_object_cursor_only :
    (∀ (it : Iterator) (v : Value) (acur : Option (List Value)),
      IteratorCpp.key
        { container := v, nextArrayEntry := acur, nextObjectEntry := it.nextObjectEntry }
        = IteratorCpp.key it) ∧
    (∀ (v : Value) (cur : List Value), IteratorCpp.key (IteratorCpp.mkArray v cur) = none) ∧
    (∀ (v : Value) (k : List Nat) (x : Value) (rest : List (List Nat × Value)),
      IteratorCpp.key (IteratorCpp.mkObject v ((k, x) :: rest)) = some k) :=
  ⟨fun _ _ _ => rfl, fun _ _ => rfl, fun _ _ _ _ => rfl⟩

/-- Claim C10: no Iterator operation mutates the bound container — the
only operation producing a new iterator state, `operator++`, preserves the
container (pointer and contents), and dereference returns the iterator
itself unchanged; the remaining operations are pure observations in this
embedding. -/
theorem iterator_preserves_container :
    (∀ it : Iterator, (IteratorCpp.inc it).container = it.container) ∧
    (∀ it : Iterator, IteratorCpp.deref it = it) := by
  constructor
  · intro it
    by_cases h : it.container.GetType = ValueType.Array <;> simp [IteratorCpp.inc, h]
  · intro it
    rfl
